import Mathlib

/-!
Verification of the training-orchestration driver in
`src/movear/models/trainer.py` (functions `build_everything`,
`train_one_ep`, `main_training`, and the `__main__` block).

The Python code is shallowly embedded as executable Lean definitions:
machine floats are modelled as rationals, the per-epoch control flow is
modelled as explicit lists of events / call records, and the mutable
best-metric trackers are modelled as a fold over per-epoch statistics.
Line numbers in doc comments refer to `src/movear/models/trainer.py`.
-/

/-- Line 296: `is_val_and_also_saving = (ep + 1) % 10 == 0 or (ep + 1) == args.ep`. -/
def is_val_and_also_saving (ep total_ep : ℕ) : Bool :=
  ((ep + 1) % 10 == 0) || (ep + 1 == total_ep)

/-- Lines 310-315: the record passed to `torch.save`, with the trainer state
and the config snapshot kept abstract (types `T` and `A`). -/
structure CheckpointRecord (T A : Type) where
  epoch : ℕ
  iter : ℕ
  trainer : T
  args : A

/-- Lines 310-315: `torch.save({'epoch': ep+1, 'iter': 0, 'trainer': ...,
'args': ...}, local_out_ckpt)`. -/
def savedCheckpoint {T A : Type} (ep : ℕ) (trainerState : T) (cfg : A) :
    CheckpointRecord T A :=
  { epoch := ep + 1, iter := 0, trainer := trainerState, args := cfg }

/-- Line 201: `stepping = (g_it + 1) % args.ac == 0`. -/
def stepping (gIt ac : ℕ) : Bool := (gIt + 1) % ac == 0

/-- Line 178: `g_it = ep * iters_train + it`. -/
def g_it (ep iters_train it : ℕ) : ℕ := ep * iters_train + it

/-- Python's built-in `round` (round-half-to-even) on a rational, the
rounding used at line 197 of trainer.py. -/
def pyRound (q : ℚ) : ℤ :=
  if q - ⌊q⌋ < 1/2 then ⌊q⌋
  else if 1/2 < q - ⌊q⌋ then ⌊q⌋ + 1
  else if Even ⌊q⌋ then ⌊q⌋ else ⌊q⌋ + 1

/-- Lines 191-199: the progressive-resolution stage.  `pg`, `wpIt` and
`maxIt` are the values of `args.pg`, `args.wp * iters_train` and
`args.ep * iters_train` (floats modelled as rationals); `pg0` is `args.pg0`
and `numPatchNums` is `len(args.patch_nums)`.  The Python code is

```
if args.pg:
    if g_it <= wp_it: prog_si = args.pg0
    elif g_it >= max_it*args.pg: prog_si = len(args.patch_nums) - 1
    else:
        delta = len(args.patch_nums) - 1 - args.pg0
        progress = min(max((g_it - wp_it) / (max_it*args.pg - wp_it), 0), 1)
        prog_si = args.pg0 + round(progress * delta)
else:
    prog_si = -1
```
-/
def prog_si (pg : ℚ) (pg0 : ℤ) (numPatchNums : ℕ) (wpIt maxIt : ℚ) (gIt : ℕ) : ℤ :=
  if pg ≠ 0 then
    if (gIt : ℚ) ≤ wpIt then pg0
    else if maxIt * pg ≤ (gIt : ℚ) then (numPatchNums : ℤ) - 1
    else
      pg0 + pyRound ((min (max (((gIt : ℚ) - wpIt) / (maxIt * pg - wpIt)) 0) 1)
        * (((numPatchNums : ℤ) - 1 - pg0 : ℤ) : ℚ))
  else -1

/-- Lines 299-300 and 316-317, restricted to the epochs at which validation
runs: given the running `best_val_loss_tail` (initially `999` at line 270)
and the list of successive validation tail-losses, produce for each
validation epoch the value of `best_updated = best_val_loss_tail >
val_loss_tail` (line 299), i.e. whether `ar-ckpt-best.pth` is written at
that epoch (line 317), updating the running best by
`best_val_loss_tail = min(best_val_loss_tail, val_loss_tail)` (line 300). -/
def best_updated_flags (best : ℚ) : List ℚ → List Bool
  | [] => []
  | l :: ls => decide (best > l) :: best_updated_flags (min best l) ls

/-- A write of the best-checkpoint file at some position of the flag list
is an overwrite iff an earlier position already wrote the file (`seen`
records whether the file exists yet). -/
def overwrite_flags (seen : Bool) : List Bool → List Bool
  | [] => []
  | f :: fs => (f && seen) :: overwrite_flags (seen || f) fs

/-- Modelled from the spec: `MetricLogger.log_every` (in
`movear.utils.misc`, a file of this repository that is not under `src/`)
is called at line 166 as `me.log_every(start_it, iters_train, ld_or_itrt, ...)`
and enumerates the iteration indices `it` of the epoch starting at
`start_it` and ending before `iters_train`, pulling one batch from the
loader per yielded index (spec 4.1(c): the sequence is advanced to skip
the first `start_iteration` batches without re-materializing them). -/
def log_every_iters (start_it iters_train : ℕ) : List ℕ :=
  List.range' start_it (iters_train - start_it)

/-- Lines 164-169: `get_batches_with_progress` yields `(it, inp, label)`
from `log_every`, additionally skipping (`continue`) any `it < start_it`.
Only the iteration index is modelled. -/
def get_batches_with_progress (start_it iters_train : ℕ) : List ℕ :=
  (log_every_iters start_it iters_train).filter (fun it => ! decide (it < start_it))

/-- Line 273: the epochs run by `for ep in range(start_ep, args.ep)`. -/
def driverEpochs (start_ep total_ep : ℕ) : List ℕ :=
  List.range' start_ep (total_ep - start_ep)

/-- Line 281: the `start_it` argument passed to `train_one_ep` for epoch
`ep`, namely `start_it if ep == start_ep else 0`. -/
def epochStartIt (start_ep start_it ep : ℕ) : ℕ :=
  if ep = start_ep then start_it else 0

/-- The `(epoch, iteration)` pairs trained on by the loop at lines 273-282
combined with the per-epoch iteration loop at line 177. -/
def trainedPairs (total_ep iters_train start_ep start_it : ℕ) : List (ℕ × ℕ) :=
  (driverEpochs start_ep total_ep).flatMap fun ep =>
    (get_batches_with_progress (epochStartIt start_ep start_it ep) iters_train).map
      fun it => (ep, it)

/-- The arguments computed by the loop body at lines 177-207 for one
iteration and passed to `lr_wd_annealing` (line 188, argument `g_it`) and
`trainer.train_step` (lines 204-207, arguments `it`, `g_it`, `stepping`,
`prog_si`). -/
structure TrainStepCall where
  it : ℕ
  gIt : ℕ
  stepping : Bool
  progSi : ℤ

/-- Lines 177-207: the list of per-iteration calls made by `train_one_ep`
for epoch `ep`.  `wp` and `pg` are `args.wp` and `args.pg` (floats modelled
as rationals); `wp_it = args.wp * iters_train` (line 187) and
`max_it = args.ep * iters_train` (line 161). -/
def trainOneEpCalls (ep iters_train start_it ac : ℕ) (pg : ℚ) (pg0 : ℤ)
    (numPatchNums : ℕ) (wp : ℚ) (total_ep : ℕ) : List TrainStepCall :=
  (get_batches_with_progress start_it iters_train).map fun it =>
    { it := it
      gIt := g_it ep iters_train it
      stepping := stepping (g_it ep iters_train it) ac
      progSi := prog_si pg pg0 numPatchNums (wp * (iters_train : ℚ))
        ((total_ep : ℚ) * (iters_train : ℚ)) (g_it ep iters_train it) }

/-- Lines 273-282: the calls of a full uninterrupted run, epoch by epoch
from `(0, 0)`. -/
def driverCalls (total_ep iters_train ac : ℕ) (pg : ℚ) (pg0 : ℤ)
    (numPatchNums : ℕ) (wp : ℚ) : List TrainStepCall :=
  (driverEpochs 0 total_ep).flatMap fun ep =>
    trainOneEpCalls ep iters_train 0 ac pg pg0 numPatchNums wp total_ep

/-- The externally visible actions of one epoch of `main_training`
(lines 273-324), in program order, tagged with the epoch that performs
them. -/
inductive TrainEvent where
  | setEpoch (ep : ℕ)
  | trainIter (ep it : ℕ)
  | syncMetrics (ep : ℕ)
  | evaluate (ep : ℕ)
  | saveLast (ep : ℕ)
  | copyBest (ep : ℕ)
  | barrier (ep : ℕ)
  | logSummary (ep : ℕ)
deriving DecidableEq, Repr

/-- The epoch tag of an event. -/
def TrainEvent.epoch : TrainEvent → ℕ
  | .setEpoch ep => ep
  | .trainIter ep _ => ep
  | .syncMetrics ep => ep
  | .evaluate ep => ep
  | .saveLast ep => ep
  | .copyBest ep => ep
  | .barrier ep => ep
  | .logSummary ep => ep

/-- Lines 296-319: the validation/checkpoint block at the end of an epoch,
executed only when `is_val_and_also_saving`: evaluate on every rank
(line 298), then on the local-leader rank only (line 306) write the
`last` checkpoint (310-315) and, if `best_updated`, copy it to `best`
(316-317), then `dist.barrier()` on every rank (line 319). -/
def valSaveBlock (ep total_ep : ℕ) (isLocalMaster bestUpd : Bool) : List TrainEvent :=
  if is_val_and_also_saving ep total_ep then
    [.evaluate ep]
    ++ (if isLocalMaster then
          [.saveLast ep] ++ (if bestUpd then [.copyBest ep] else [])
        else [])
    ++ [.barrier ep]
  else []

/-- Lines 274-324, one epoch of `main_training` in program order:
`set_epoch` when the sampler exposes the hook (274-275), the training
iterations (280, expanding `train_one_ep`'s loop at 177), the cross-rank
metric synchronization (line 233), then the validation/checkpoint block
(296-319), and finally the epoch summary logging (321-324). -/
def epochTrace (ep total_ep iters_train start_it : ℕ)
    (hasHook isLocalMaster bestUpd : Bool) : List TrainEvent :=
  (if hasHook then [.setEpoch ep] else [])
  ++ (get_batches_with_progress start_it iters_train).map (fun it => .trainIter ep it)
  ++ [.syncMetrics ep]
  ++ valSaveBlock ep total_ep isLocalMaster bestUpd
  ++ [.logSummary ep]

/-- Lines 273-324: the event trace of the whole epoch loop on one rank;
`bestUpd ep` abstracts the epoch-dependent value of `best_updated`. -/
def driverTrace (total_ep start_ep start_it iters_train : ℕ)
    (hasHook isLocalMaster : Bool) (bestUpd : ℕ → Bool) : List TrainEvent :=
  (driverEpochs start_ep total_ep).flatMap fun ep =>
    epochTrace ep total_ep iters_train (epochStartIt start_ep start_it ep)
      hasHook isLocalMaster (bestUpd ep)

/-- The per-epoch aggregated statistics read at line 284 (`stats['Lm']`,
`stats['Lt']`, `stats['Accm']`, `stats['Acct']`) together with the result
of `trainer.evaluate` at line 298 when validation ran this epoch
(`val = some (val_loss_mean, val_loss_tail, val_acc_mean, val_acc_tail)`). -/
structure EpochStats where
  Lm : ℚ
  Lt : ℚ
  Accm : ℚ
  Acct : ℚ
  val : Option (ℚ × ℚ × ℚ × ℚ)

/-- The best-metric tracker variables of `main_training`
(lines 269-270). -/
structure BestTrackers where
  best_L_mean : ℚ
  best_L_tail : ℚ
  best_acc_mean : ℚ
  best_acc_tail : ℚ
  best_val_loss_mean : ℚ
  best_val_loss_tail : ℚ
  best_val_acc_mean : ℚ
  best_val_acc_tail : ℚ

/-- Lines 269-270: `best_L_mean, best_L_tail, best_acc_mean, best_acc_tail
= 999., 999., -1., -1.` and `best_val_loss_mean, best_val_loss_tail,
best_val_acc_mean, best_val_acc_tail = 999, 999, -1, -1`. -/
def initTrackers : BestTrackers :=
  { best_L_mean := 999, best_L_tail := 999
    best_acc_mean := -1, best_acc_tail := -1
    best_val_loss_mean := 999, best_val_loss_tail := 999
    best_val_acc_mean := -1, best_val_acc_tail := -1 }

/-- Lines 285-286 and 300-301: the tracker updates of one epoch.
`best_L_mean`/`best_acc_mean` are updated unconditionally (285);
`best_L_tail`/`best_acc_tail` only when `L_tail != -1` (286); the four
validation trackers only when validation ran (300-301). -/
def updateTrackers (s : BestTrackers) (st : EpochStats) : BestTrackers :=
  let s1 := { s with best_L_mean := min s.best_L_mean st.Lm
                     best_acc_mean := max s.best_acc_mean st.Accm }
  let s2 := if st.Lt ≠ -1 then
      { s1 with best_L_tail := min s1.best_L_tail st.Lt
                best_acc_tail := max s1.best_acc_tail st.Acct }
    else s1
  match st.val with
  | none => s2
  | some (vLm, vLt, vAm, vAt) =>
      { s2 with best_val_loss_mean := min s2.best_val_loss_mean vLm
                best_val_loss_tail := min s2.best_val_loss_tail vLt
                best_val_acc_mean := max s2.best_val_acc_mean vAm
                best_val_acc_tail := max s2.best_val_acc_tail vAt }

/-- The tracker state after the epochs whose statistics are `l`,
starting from the initial sentinels of lines 269-270. -/
def runTrackers (l : List EpochStats) : BestTrackers :=
  l.foldl updateTrackers initTrackers

/-- The tail losses that the code actually observes for the tail trackers:
line 286 skips the update when `L_tail == -1`. -/
def observedTailLosses (l : List EpochStats) : List ℚ :=
  (l.filter fun st => ! (st.Lt == -1)).map EpochStats.Lt

/-- The tail accuracies observed by line 286 (same `L_tail != -1` guard). -/
def observedTailAccs (l : List EpochStats) : List ℚ :=
  (l.filter fun st => ! (st.Lt == -1)).map EpochStats.Acct

/-- The validation results observed at the epochs where validation ran. -/
def observedVals (l : List EpochStats) : List (ℚ × ℚ × ℚ × ℚ) :=
  l.filterMap EpochStats.val

/-- The cleanup/exit actions of the program, modelling lines 324, 331-332
(the normal-completion tail of `main_training`) and the `finally` block of
the `__main__` guard (lines 352-358). -/
inductive ExitAction where
  | dumpLog
  | tbFlush
  | tbClose
  | distBarrier
  | distFinalize
  | closeStdio
deriving DecidableEq, Repr

/-- Lines 352-358: the actions executed after the `try` body, on both the
normal and the exceptional path.  When `main_training` completes normally
it first runs line 331 `args.dump_log(); tb_lg.flush(); tb_lg.close()` and
line 332 `dist.barrier()`; when an exception escapes (modelled here as
escaping before any epoch completed, e.g. inside `build_everything`), the
body contributes nothing.  The `finally` block (355-358) always runs
`dist.finalize()` and, when `SyncPrint` is installed on stdout/stderr,
closes those streams. -/
def programExitTrace (completed syncPrint : Bool) : List ExitAction :=
  (if completed then [.dumpLog, .tbFlush, .tbClose, .distBarrier] else [])
  ++ [.distFinalize]
  ++ (if syncPrint then [.closeStdio] else [])

/-! ### Helper lemmas -/

lemma best_updated_flags_append (pre rest : List ℚ) : ∀ b : ℚ,
    best_updated_flags b (pre ++ rest)
      = best_updated_flags b pre ++ best_updated_flags (pre.foldl min b) rest := by
  induction pre with
  | nil => intro b; simp [best_updated_flags]
  | cons x xs ih => intro b; simp [best_updated_flags, ih]

lemma get_batches_eq (s n : ℕ) :
    get_batches_with_progress s n = List.range' s (n - s) := by
  unfold get_batches_with_progress log_every_iters
  rw [List.filter_eq_self]
  intro a ha
  obtain ⟨i, _, rfl⟩ := List.mem_range'.mp ha
  have hns : ¬ (s + 1 * i < s) := by omega
  simp [hns]

lemma flatMap_congr' {α β : Type} (f f2 : α → List β) :
    ∀ {l : List α}, (∀ a ∈ l, f a = f2 a) → l.flatMap f = l.flatMap f2 := by
  intro l
  induction l with
  | nil => intro _; rfl
  | cons a t ih =>
      intro h
      simp only [List.flatMap_cons]
      rw [h a (List.mem_cons_self a t), ih fun b hb => h b (List.mem_cons_of_mem a hb)]

lemma flatMap_range'_blocks (E iters : ℕ) :
    (List.range' 0 E).flatMap (fun ep => List.range' (ep * iters) iters)
      = List.range' 0 (E * iters) := by
  induction E with
  | zero => simp
  | succ E ih =>
      rw [List.range'_1_concat, List.flatMap_append, ih]
      simp only [List.flatMap_cons, List.flatMap_nil, List.append_nil, Nat.zero_add]
      rw [Nat.succ_mul, Nat.add_comm (E * iters) iters,
        ← List.range'_append_1 0 (E * iters) iters, Nat.zero_add]

/-! ### Claim theorems -/

/-- C1: the best checkpoint file is written at a validation epoch iff that
epoch's validation tail-loss improves on the running
`best_val_loss_tail` (initially the sentinel `999`, thereafter the minimum
of the validation tail-losses seen so far); on the loss sequence
`[2.0, 1.5, 1.8, 1.2]` the file is written at the epochs yielding `2.0`
(the initial creation of the file, since `2.0 < 999`), `1.5` and `1.2`,
and hence an existing best file is *overwritten* exactly at the epochs
yielding `1.5` and `1.2`. -/
theorem best_checkpoint_write_policy (pre post : List ℚ) (l : ℚ) :
    best_updated_flags 999 (pre ++ l :: post)
      = best_updated_flags 999 pre
        ++ decide (pre.foldl min 999 > l)
          :: best_updated_flags (min (pre.foldl min 999) l) post
    ∧ best_updated_flags 999 [2, 1.5, 1.8, 1.2] = [true, true, false, true]
    ∧ overwrite_flags false (best_updated_flags 999 [2, 1.5, 1.8, 1.2])
        = [false, true, false, true] := by
  refine ⟨?_, ?_, ?_⟩
  · rw [best_updated_flags_append]; rfl
  · norm_num [best_updated_flags, min_def]
  · norm_num [best_updated_flags, overwrite_flags, min_def]

/-- C3: a checkpoint is saved exactly at the epochs `ep` with
`(ep + 1) % 10 == 0` or `ep + 1 == args.ep` (so for a 30-epoch run at
epochs 9, 19 and 29 only), and the saved record is
`{epoch: ep+1, iter: 0, trainer: trainer_state, args: config_snapshot}`. -/
theorem checkpoint_save_cadence {T A : Type} (ep total_ep : ℕ) (ts : T) (cfg : A) :
    (is_val_and_also_saving ep total_ep = true
      ↔ (ep + 1) % 10 = 0 ∨ ep + 1 = total_ep)
    ∧ (savedCheckpoint ep ts cfg).epoch = ep + 1
    ∧ (savedCheckpoint ep ts cfg).iter = 0
    ∧ (savedCheckpoint ep ts cfg).trainer = ts
    ∧ (savedCheckpoint ep ts cfg).args = cfg
    ∧ (List.range 30).filter (fun e => is_val_and_also_saving e 30) = [9, 19, 29] := by
  refine ⟨?_, rfl, rfl, rfl, rfl, by decide⟩
  simp [is_val_and_also_saving]

/-- C9, counterexample: on the exit path where an exception escapes
`main_training` (here: before any epoch completed), the `finally` block of
lines 352-358 releases the distributed context but performs no
telemetry-sink flush or close, contradicting the claim that the telemetry
sink is flushed on every exit path. -/
theorem exit_cleanup_counterexample :
    ExitAction.distFinalize ∈ programExitTrace false true
    ∧ (programExitTrace false true).count ExitAction.tbFlush = 0
    ∧ (programExitTrace false true).count ExitAction.tbClose = 0 := by decide

/-- C9, amended: on every exit path the process attempts to finalize the
distributed context (and to close the synchronized stdout/stderr streams
when they are installed); the telemetry sink, however, is flushed and
closed only on the normal-completion path of `main_training` (line 331),
not when an exception escapes. -/
theorem exit_cleanup_amended :
    (∀ completed syncPrint : Bool,
      ExitAction.distFinalize ∈ programExitTrace completed syncPrint)
    ∧ (∀ syncPrint : Bool,
        (programExitTrace true syncPrint).count ExitAction.tbFlush = 1
        ∧ (programExitTrace true syncPrint).count ExitAction.tbClose = 1
        ∧ (programExitTrace false syncPrint).count ExitAction.tbFlush = 0
        ∧ (programExitTrace false syncPrint).count ExitAction.tbClose = 0
        ∧ (programExitTrace true syncPrint).count ExitAction.closeStdio
            = (if syncPrint then 1 else 0)
        ∧ (programExitTrace false syncPrint).count ExitAction.closeStdio
            = (if syncPrint then 1 else 0)) := by decide

/-- C4: every per-iteration call passes `stepping = ((g_it + 1) % args.ac == 0)`
to `train_step` (line 201), each window of `ac` consecutive global steps
`[w*ac, (w+1)*ac)` contains exactly one stepping call, namely its last
step `w*ac + (ac - 1)`, and the `g_it` passed alongside is the global step
`ep * iters_train + it` of the iteration. -/
theorem stepping_accumulation_window (ep iters_train start_it ac : ℕ) (pg : ℚ)
    (pg0 : ℤ) (numPatchNums : ℕ) (wp : ℚ) (total_ep : ℕ) (hac : 0 < ac) :
    (trainOneEpCalls ep iters_train start_it ac pg pg0 numPatchNums wp total_ep).map
        TrainStepCall.stepping
      = (trainOneEpCalls ep iters_train start_it ac pg pg0 numPatchNums wp total_ep).map
          (fun c => decide ((c.gIt + 1) % ac = 0))
    ∧ (∀ w : ℕ, (List.range ac).map (fun k => stepping (w * ac + k) ac)
        = (List.range ac).map (fun k => decide (k = ac - 1)))
    ∧ (trainOneEpCalls ep iters_train start_it ac pg pg0 numPatchNums wp total_ep).map
        TrainStepCall.gIt
      = (get_batches_with_progress start_it iters_train).map
          (fun it => ep * iters_train + it) := by
  refine ⟨?_, ?_, ?_⟩
  · simp only [trainOneEpCalls, List.map_map]
    apply List.map_congr_left
    intro it _
    simp [stepping, Bool.beq_eq_decide_eq]
  · intro w
    apply List.map_congr_left
    intro k hk
    rw [List.mem_range] at hk
    simp only [stepping]
    have h1 : w * ac + k + 1 = (k + 1) + w * ac := by omega
    rw [h1, Nat.add_mul_mod_self_right]
    by_cases hk1 : k = ac - 1
    · subst hk1
      have h2 : ac - 1 + 1 = ac := by omega
      rw [h2, Nat.mod_self]
      simp
    · have h2 : (k + 1) % ac = k + 1 := Nat.mod_eq_of_lt (by omega)
      rw [h2]
      simp [hk1]
  · simp only [trainOneEpCalls, List.map_map]
    rfl

/-- Witness for `stepping_accumulation_window` at a concrete configuration. -/
theorem stepping_accumulation_window_witness :
    0 < 2
    ∧ ((trainOneEpCalls 1 3 0 2 0 0 1 0 2).map TrainStepCall.stepping
        = (trainOneEpCalls 1 3 0 2 0 0 1 0 2).map
            (fun c => decide ((c.gIt + 1) % 2 = 0))
      ∧ (∀ w : ℕ, (List.range 2).map (fun k => stepping (w * 2 + k) 2)
          = (List.range 2).map (fun k => decide (k = 2 - 1)))
      ∧ (trainOneEpCalls 1 3 0 2 0 0 1 0 2).map TrainStepCall.gIt
        = (get_batches_with_progress 0 3).map (fun it => 1 * 3 + it)) :=
  ⟨by decide, stepping_accumulation_window 1 3 0 2 0 0 1 0 2 (by decide)⟩

/-- C7: in every per-iteration call of an epoch, the `g_it` passed to the
scheduler (line 188) and to `train_step` (line 205) equals
`ep * iters_train + it` for that call's iteration index `it`, and over an
uninterrupted run the successive `g_it` values are exactly
`0, 1, ..., total_ep * iters_train - 1`, i.e. the invariant
`global_step == epoch * iters_per_epoch + iteration` holds at every
iteration. -/
theorem global_step_invariant (ep iters_train start_it ac : ℕ) (pg : ℚ) (pg0 : ℤ)
    (numPatchNums : ℕ) (wp : ℚ) (total_ep : ℕ) :
    (trainOneEpCalls ep iters_train start_it ac pg pg0 numPatchNums wp total_ep).map
        (fun c => (c.it, c.gIt))
      = (get_batches_with_progress start_it iters_train).map
          (fun it => (it, ep * iters_train + it))
    ∧ (driverCalls total_ep iters_train ac pg pg0 numPatchNums wp).map
        TrainStepCall.gIt
      = List.range (total_ep * iters_train) := by
  constructor
  · simp only [trainOneEpCalls, List.map_map]
    rfl
  · unfold driverCalls driverEpochs
    rw [Nat.sub_zero, List.map_flatMap]
    have hbl : ∀ e ∈ List.range' 0 total_ep,
        (trainOneEpCalls e iters_train 0 ac pg pg0 numPatchNums wp total_ep).map
          TrainStepCall.gIt
          = List.range' (e * iters_train) iters_train := by
      intro e _
      simp only [trainOneEpCalls, List.map_map, get_batches_eq, Nat.sub_zero]
      have hmap : ((fun c => TrainStepCall.gIt c) ∘ fun it =>
          ({ it := it, gIt := g_it e iters_train it,
             stepping := stepping (g_it e iters_train it) ac,
             progSi := prog_si pg pg0 numPatchNums (wp * (iters_train : ℚ))
               ((total_ep : ℚ) * (iters_train : ℚ)) (g_it e iters_train it) } :
            TrainStepCall))
          = (fun it => e * iters_train + it) := rfl
      rw [hmap]
      have h4 := List.map_add_range' (e * iters_train) 0 iters_train 1
      rw [Nat.add_zero] at h4
      exact h4
    rw [flatMap_congr' _ _ hbl, flatMap_range'_blocks, List.range_eq_range']

/-- C6: the driver runs exactly the epochs `start_ep, ..., total_ep - 1`
in strictly increasing order (and zero epochs when
`start_ep >= total_ep`), and when the sampler exposes the `set_epoch`
hook the very first event of every epoch is the `set_epoch(ep)`
notification, which therefore precedes all of that epoch's iterations;
without the hook no `set_epoch` event occurs. -/
theorem epoch_driver_order (start_ep total_ep ep iters_train s : ℕ)
    (leader best : Bool) :
    (driverEpochs start_ep total_ep).length = total_ep - start_ep
    ∧ (driverEpochs start_ep total_ep).Pairwise (· < ·)
    ∧ (∀ e : ℕ, e ∈ driverEpochs start_ep total_ep ↔ start_ep ≤ e ∧ e < total_ep)
    ∧ (epochTrace ep total_ep iters_train s true leader best).head?
        = some (.setEpoch ep)
    ∧ (epochTrace ep total_ep iters_train s false leader best).count
        (.setEpoch ep) = 0 := by
  refine ⟨by simp [driverEpochs], List.pairwise_lt_range' start_ep _, ?_, ?_, ?_⟩
  · intro e
    unfold driverEpochs
    constructor
    · intro he
      obtain ⟨i, hi, rfl⟩ := List.mem_range'.mp he
      omega
    · intro ⟨h1, h2⟩
      exact List.mem_range'.mpr ⟨e - start_ep, by omega, by omega⟩
  · simp [epochTrace]
  · rw [List.count_eq_zero]
    intro hmem
    unfold epochTrace valSaveBlock at hmem
    rcases Bool.eq_false_or_eq_true (is_val_and_also_saving ep total_ep) with hv | hv <;>
      rcases Bool.eq_false_or_eq_true leader with hl | hl <;>
        rcases Bool.eq_false_or_eq_true best with hb | hb <;>
          simp [hv, hl, hb] at hmem

lemma updateTrackers_eq (s : BestTrackers) (st : EpochStats) :
    updateTrackers s st =
      { best_L_mean := min s.best_L_mean st.Lm
        best_L_tail := if st.Lt ≠ -1 then min s.best_L_tail st.Lt else s.best_L_tail
        best_acc_mean := max s.best_acc_mean st.Accm
        best_acc_tail := if st.Lt ≠ -1 then max s.best_acc_tail st.Acct else s.best_acc_tail
        best_val_loss_mean :=
          match st.val with
          | none => s.best_val_loss_mean
          | some v => min s.best_val_loss_mean v.1
        best_val_loss_tail :=
          match st.val with
          | none => s.best_val_loss_tail
          | some v => min s.best_val_loss_tail v.2.1
        best_val_acc_mean :=
          match st.val with
          | none => s.best_val_acc_mean
          | some v => max s.best_val_acc_mean v.2.2.1
        best_val_acc_tail :=
          match st.val with
          | none => s.best_val_acc_tail
          | some v => max s.best_val_acc_tail v.2.2.2 } := by
  unfold updateTrackers
  cases hv : st.val with
  | none => split_ifs <;> rfl
  | some v =>
      obtain ⟨a, b, c, d⟩ := v
      split_ifs <;> rfl

lemma updateTrackers_mono (s : BestTrackers) (st : EpochStats) :
    (updateTrackers s st).best_L_mean ≤ s.best_L_mean
    ∧ (updateTrackers s st).best_L_tail ≤ s.best_L_tail
    ∧ s.best_acc_mean ≤ (updateTrackers s st).best_acc_mean
    ∧ s.best_acc_tail ≤ (updateTrackers s st).best_acc_tail
    ∧ (updateTrackers s st).best_val_loss_mean ≤ s.best_val_loss_mean
    ∧ (updateTrackers s st).best_val_loss_tail ≤ s.best_val_loss_tail
    ∧ s.best_val_acc_mean ≤ (updateTrackers s st).best_val_acc_mean
    ∧ s.best_val_acc_tail ≤ (updateTrackers s st).best_val_acc_tail := by
  rw [updateTrackers_eq]
  refine ⟨min_le_left _ _, ?_, le_max_left _ _, ?_, ?_, ?_, ?_, ?_⟩
  · split_ifs
    · exact min_le_left _ _
    · exact le_refl _
  · split_ifs
    · exact le_max_left _ _
    · exact le_refl _
  · cases st.val with
    | none => exact le_refl _
    | some v => exact min_le_left _ _
  · cases st.val with
    | none => exact le_refl _
    | some v => exact min_le_left _ _
  · cases st.val with
    | none => exact le_refl _
    | some v => exact le_max_left _ _
  · cases st.val with
    | none => exact le_refl _
    | some v => exact le_max_left _ _

lemma run_best_L_mean : ∀ (l : List EpochStats) (s : BestTrackers),
    (l.foldl updateTrackers s).best_L_mean
      = (l.map EpochStats.Lm).foldl min s.best_L_mean := by
  intro l
  induction l with
  | nil => intro s; rfl
  | cons st t ih => intro s; simp [ih, updateTrackers_eq]

lemma run_best_acc_mean : ∀ (l : List EpochStats) (s : BestTrackers),
    (l.foldl updateTrackers s).best_acc_mean
      = (l.map EpochStats.Accm).foldl max s.best_acc_mean := by
  intro l
  induction l with
  | nil => intro s; rfl
  | cons st t ih => intro s; simp [ih, updateTrackers_eq]

lemma run_best_L_tail : ∀ (l : List EpochStats) (s : BestTrackers),
    (l.foldl updateTrackers s).best_L_tail
      = (observedTailLosses l).foldl min s.best_L_tail := by
  intro l
  induction l with
  | nil => intro s; rfl
  | cons st t ih =>
      intro s
      by_cases hL : st.Lt = -1 <;>
        simp [ih, updateTrackers_eq, observedTailLosses, List.filter_cons, hL]

lemma run_best_acc_tail : ∀ (l : List EpochStats) (s : BestTrackers),
    (l.foldl updateTrackers s).best_acc_tail
      = (observedTailAccs l).foldl max s.best_acc_tail := by
  intro l
  induction l with
  | nil => intro s; rfl
  | cons st t ih =>
      intro s
      by_cases hL : st.Lt = -1 <;>
        simp [ih, updateTrackers_eq, observedTailAccs, List.filter_cons, hL]

lemma run_best_val_loss_mean : ∀ (l : List EpochStats) (s : BestTrackers),
    (l.foldl updateTrackers s).best_val_loss_mean
      = ((observedVals l).map (fun v => v.1)).foldl min s.best_val_loss_mean := by
  intro l
  induction l with
  | nil => intro s; rfl
  | cons st t ih =>
      intro s
      cases hv : st.val <;>
        simp [ih, updateTrackers_eq, observedVals, List.filterMap_cons, hv]

lemma run_best_val_loss_tail : ∀ (l : List EpochStats) (s : BestTrackers),
    (l.foldl updateTrackers s).best_val_loss_tail
      = ((observedVals l).map (fun v => v.2.1)).foldl min s.best_val_loss_tail := by
  intro l
  induction l with
  | nil => intro s; rfl
  | cons st t ih =>
      intro s
      cases hv : st.val <;>
        simp [ih, updateTrackers_eq, observedVals, List.filterMap_cons, hv]

lemma run_best_val_acc_mean : ∀ (l : List EpochStats) (s : BestTrackers),
    (l.foldl updateTrackers s).best_val_acc_mean
      = ((observedVals l).map (fun v => v.2.2.1)).foldl max s.best_val_acc_mean := by
  intro l
  induction l with
  | nil => intro s; rfl
  | cons st t ih =>
      intro s
      cases hv : st.val <;>
        simp [ih, updateTrackers_eq, observedVals, List.filterMap_cons, hv]

lemma run_best_val_acc_tail : ∀ (l : List EpochStats) (s : BestTrackers),
    (l.foldl updateTrackers s).best_val_acc_tail
      = ((observedVals l).map (fun v => v.2.2.2)).foldl max s.best_val_acc_tail := by
  intro l
  induction l with
  | nil => intro s; rfl
  | cons st t ih =>
      intro s
      cases hv : st.val <;>
        simp [ih, updateTrackers_eq, observedVals, List.filterMap_cons, hv]

/-- C8: after every epoch the best trackers move only in their improving
direction (losses never increase, accuracies never decrease), and after
`n` epochs each tracker equals the min (for losses) / max (for
accuracies) of its initial sentinel (`999` resp. `-1`) and all values
observed so far — where the tail trackers observe only epochs with
`L_tail != -1` (line 286) and the validation trackers only epochs where
validation ran (lines 296-301). -/
theorem best_trackers_extrema (l : List EpochStats) (n : ℕ) :
    ((runTrackers (l.take (n + 1))).best_L_mean ≤ (runTrackers (l.take n)).best_L_mean
    ∧ (runTrackers (l.take (n + 1))).best_L_tail ≤ (runTrackers (l.take n)).best_L_tail
    ∧ (runTrackers (l.take n)).best_acc_mean
        ≤ (runTrackers (l.take (n + 1))).best_acc_mean
    ∧ (runTrackers (l.take n)).best_acc_tail
        ≤ (runTrackers (l.take (n + 1))).best_acc_tail
    ∧ (runTrackers (l.take (n + 1))).best_val_loss_mean
        ≤ (runTrackers (l.take n)).best_val_loss_mean
    ∧ (runTrackers (l.take (n + 1))).best_val_loss_tail
        ≤ (runTrackers (l.take n)).best_val_loss_tail
    ∧ (runTrackers (l.take n)).best_val_acc_mean
        ≤ (runTrackers (l.take (n + 1))).best_val_acc_mean
    ∧ (runTrackers (l.take n)).best_val_acc_tail
        ≤ (runTrackers (l.take (n + 1))).best_val_acc_tail)
    ∧ ((runTrackers (l.take n)).best_L_mean
        = ((l.take n).map EpochStats.Lm).foldl min 999
    ∧ (runTrackers (l.take n)).best_L_tail
        = (observedTailLosses (l.take n)).foldl min 999
    ∧ (runTrackers (l.take n)).best_acc_mean
        = ((l.take n).map EpochStats.Accm).foldl max (-1)
    ∧ (runTrackers (l.take n)).best_acc_tail
        = (observedTailAccs (l.take n)).foldl max (-1)
    ∧ (runTrackers (l.take n)).best_val_loss_mean
        = ((observedVals (l.take n)).map (fun v => v.1)).foldl min 999
    ∧ (runTrackers (l.take n)).best_val_loss_tail
        = ((observedVals (l.take n)).map (fun v => v.2.1)).foldl min 999
    ∧ (runTrackers (l.take n)).best_val_acc_mean
        = ((observedVals (l.take n)).map (fun v => v.2.2.1)).foldl max (-1)
    ∧ (runTrackers (l.take n)).best_val_acc_tail
        = ((observedVals (l.take n)).map (fun v => v.2.2.2)).foldl max (-1)) := by
  have htake : runTrackers (l.take (n + 1))
      = (l[n]?.toList).foldl updateTrackers (runTrackers (l.take n)) := by
    rw [runTrackers, runTrackers, List.take_succ, List.foldl_append]
  constructor
  · cases hn : l[n]? with
    | none =>
        rw [htake, hn]
        exact ⟨le_refl _, le_refl _, le_refl _, le_refl _,
          le_refl _, le_refl _, le_refl _, le_refl _⟩
    | some st =>
        rw [htake, hn]
        exact updateTrackers_mono (runTrackers (l.take n)) st
  · exact ⟨run_best_L_mean _ _, run_best_L_tail _ _, run_best_acc_mean _ _,
      run_best_acc_tail _ _, run_best_val_loss_mean _ _, run_best_val_loss_tail _ _,
      run_best_val_acc_mean _ _, run_best_val_acc_tail _ _⟩

lemma block_pairs_len (ep iters : ℕ) :
    ((get_batches_with_progress 0 iters).map (fun it => (ep, it))).length = iters := by
  simp [get_batches_eq]

lemma full_pairs_len (iters : ℕ) : ∀ l : List ℕ,
    (l.flatMap fun ep =>
      (get_batches_with_progress 0 iters).map (fun it => (ep, it))).length
      = l.length * iters := by
  intro l
  induction l with
  | nil => simp
  | cons a t ih =>
      simp only [List.flatMap_cons, List.length_append, ih, List.length_cons,
        block_pairs_len]
      ring

lemma full_pairs_drop (iters E : ℕ) : ∀ k : ℕ,
    ((List.range' 0 E).flatMap fun ep =>
      (get_batches_with_progress 0 iters).map (fun it => (ep, it))).drop (k * iters)
      = (List.range' k (E - k)).flatMap fun ep =>
          (get_batches_with_progress 0 iters).map (fun it => (ep, it)) := by
  intro k
  induction k with
  | zero => simp
  | succ k ih =>
      rw [Nat.succ_mul, ← List.drop_drop, ih]
      rcases Nat.lt_or_ge k E with hk | hk
      · have h1 : E - k = (E - (k + 1)) + 1 := by omega
        rw [h1, List.range'_succ, List.flatMap_cons, List.drop_left' (block_pairs_len k iters)]
      · have h1 : E - k = 0 := by omega
        have h2 : E - (k + 1) = 0 := by omega
        rw [h1, h2]
        simp

/-- C2: a run resumed at `(start_ep, start_it)` trains exactly on the
pairs `(ep, it)` with `start_ep <= ep < total_ep`, `it < iters_train`, and
`it >= start_it` when `ep = start_ep` (skipped iterations of the resumed
epoch are not trained on, and every later epoch starts at iteration 0);
this remaining sequence equals the uninterrupted run's sequence with its
first `start_ep * iters_train + start_it` iterations discarded. -/
theorem resume_matches_uninterrupted (total_ep iters_train start_ep start_it : ℕ)
    (h : start_it ≤ iters_train) :
    (∀ ep it : ℕ,
      (ep, it) ∈ trainedPairs total_ep iters_train start_ep start_it
        ↔ start_ep ≤ ep ∧ ep < total_ep ∧ it < iters_train
            ∧ (start_it ≤ it ∨ start_ep < ep))
    ∧ trainedPairs total_ep iters_train start_ep start_it
      = (trainedPairs total_ep iters_train 0 0).drop
          (start_ep * iters_train + start_it) := by
  have hfull : trainedPairs total_ep iters_train 0 0
      = (List.range' 0 total_ep).flatMap fun ep =>
          (get_batches_with_progress 0 iters_train).map (fun it => (ep, it)) := by
    unfold trainedPairs driverEpochs epochStartIt
    simp
  constructor
  · intro ep it
    constructor
    · intro hmem
      unfold trainedPairs driverEpochs at hmem
      simp only [List.mem_flatMap, List.mem_map] at hmem
      obtain ⟨e, he, it2, hit2, heq⟩ := hmem
      obtain ⟨i, hi, rfl⟩ := List.mem_range'.mp he
      cases heq
      rw [get_batches_eq] at hit2
      obtain ⟨j, hj, rfl⟩ := List.mem_range'.mp hit2
      by_cases hc : start_ep + 1 * i = start_ep
      · simp only [epochStartIt, if_pos hc] at hj ⊢
        refine ⟨by omega, by omega, by omega, Or.inl (by omega)⟩
      · simp only [epochStartIt, if_neg hc] at hj ⊢
        refine ⟨by omega, by omega, by omega, Or.inr (by omega)⟩
    · rintro ⟨h1, h2, h3, h4⟩
      unfold trainedPairs driverEpochs
      simp only [List.mem_flatMap, List.mem_map]
      have hs2 : epochStartIt start_ep start_it ep ≤ it
          ∧ epochStartIt start_ep start_it ep ≤ iters_train := by
        unfold epochStartIt
        split_ifs with hc
        · subst hc
          rcases h4 with h4 | h4
          · exact ⟨h4, h⟩
          · omega
        · exact ⟨Nat.zero_le _, Nat.zero_le _⟩
      refine ⟨ep, List.mem_range'.mpr ⟨ep - start_ep, by omega, by omega⟩,
        it, ?_, rfl⟩
      rw [get_batches_eq]
      exact List.mem_range'.mpr ⟨it - epochStartIt start_ep start_it ep,
        by omega, by omega⟩
  · rcases Nat.lt_or_ge start_ep total_ep with hlt | hge
    · rw [hfull, ← List.drop_drop, full_pairs_drop iters_train total_ep start_ep]
      have h1 : total_ep - start_ep = (total_ep - (start_ep + 1)) + 1 := by omega
      rw [h1, List.range'_succ, List.flatMap_cons,
        List.drop_append_of_le_length (by rw [block_pairs_len]; exact h)]
      unfold trainedPairs driverEpochs
      rw [h1, List.range'_succ, List.flatMap_cons]
      congr 1
      · rw [show epochStartIt start_ep start_it start_ep = start_it from if_pos rfl,
          ← List.map_drop]
        congr 1
        rw [get_batches_eq, get_batches_eq, Nat.sub_zero]
        have h5 := List.range'_append_1 0 start_it (iters_train - start_it)
        rw [Nat.zero_add] at h5
        rw [show iters_train - start_it + start_it = iters_train from by omega] at h5
        rw [← h5, List.drop_left' (by simp)]
      · apply flatMap_congr'
        intro a ha
        obtain ⟨i2, _, rfl⟩ := List.mem_range'.mp ha
        rw [show epochStartIt start_ep start_it (start_ep + 1 + 1 * i2) = 0
          from if_neg (by omega)]
    · have hL : trainedPairs total_ep iters_train start_ep start_it = [] := by
        unfold trainedPairs driverEpochs
        rw [show total_ep - start_ep = 0 from by omega]
        rfl
      rw [hL, hfull, List.drop_eq_nil_of_le]
      rw [full_pairs_len, List.length_range']
      exact le_trans (Nat.mul_le_mul_right _ hge) (Nat.le_add_right _ _)

/-- Witness for `resume_matches_uninterrupted` at a concrete
configuration. -/
theorem resume_matches_uninterrupted_witness :
    1 ≤ 2
    ∧ ((∀ ep it : ℕ,
        (ep, it) ∈ trainedPairs 3 2 1 1
          ↔ 1 ≤ ep ∧ ep < 3 ∧ it < 2 ∧ (1 ≤ it ∨ 1 < ep))
      ∧ trainedPairs 3 2 1 1 = (trainedPairs 3 2 0 0).drop (1 * 2 + 1)) :=
  ⟨by decide, resume_matches_uninterrupted 3 2 1 1 (by decide)⟩

@[simp] lemma count_trainIter_evaluate (ep ep2 : ℕ) (l : List ℕ) :
    (l.map fun it => TrainEvent.trainIter ep it).count (TrainEvent.evaluate ep2) = 0 := by
  rw [List.count_eq_zero]
  intro hmem
  obtain ⟨a, _, ha⟩ := List.mem_map.mp hmem
  exact absurd ha (by simp)

@[simp] lemma count_trainIter_saveLast (ep ep2 : ℕ) (l : List ℕ) :
    (l.map fun it => TrainEvent.trainIter ep it).count (TrainEvent.saveLast ep2) = 0 := by
  rw [List.count_eq_zero]
  intro hmem
  obtain ⟨a, _, ha⟩ := List.mem_map.mp hmem
  exact absurd ha (by simp)

@[simp] lemma count_trainIter_copyBest (ep ep2 : ℕ) (l : List ℕ) :
    (l.map fun it => TrainEvent.trainIter ep it).count (TrainEvent.copyBest ep2) = 0 := by
  rw [List.count_eq_zero]
  intro hmem
  obtain ⟨a, _, ha⟩ := List.mem_map.mp hmem
  exact absurd ha (by simp)

@[simp] lemma count_trainIter_barrier (ep ep2 : ℕ) (l : List ℕ) :
    (l.map fun it => TrainEvent.trainIter ep it).count (TrainEvent.barrier ep2) = 0 := by
  rw [List.count_eq_zero]
  intro hmem
  obtain ⟨a, _, ha⟩ := List.mem_map.mp hmem
  exact absurd ha (by simp)

lemma epochTrace_epoch_eq (ep total_ep iters_train s : ℕ) (hook leader best : Bool) :
    ∀ e ∈ epochTrace ep total_ep iters_train s hook leader best,
      TrainEvent.epoch e = ep := by
  intro e he
  unfold epochTrace valSaveBlock at he
  rcases Bool.eq_false_or_eq_true hook with h1 | h1 <;>
    rcases Bool.eq_false_or_eq_true (is_val_and_also_saving ep total_ep) with h2 | h2 <;>
      rcases Bool.eq_false_or_eq_true leader with h3 | h3 <;>
        rcases Bool.eq_false_or_eq_true best with h4 | h4 <;>
          simp [h1, h2, h3, h4] at he
  all_goals cases e <;> simp_all [TrainEvent.epoch]

lemma pairwise_le_of_tag {l : List TrainEvent} {ep : ℕ}
    (h : ∀ e ∈ l, TrainEvent.epoch e = ep) :
    l.Pairwise fun a b => TrainEvent.epoch a ≤ TrainEvent.epoch b := by
  induction l with
  | nil => exact List.Pairwise.nil
  | cons a t ih =>
      refine List.Pairwise.cons (fun b hb => ?_)
        (ih fun e he => h e (List.mem_cons_of_mem a he))
      rw [h a (List.mem_cons_self a t), h b (List.mem_cons_of_mem a hb)]

/-- C5: in every epoch where validation and saving run (`h`), every rank's
trace evaluates exactly once and passes the barrier exactly once; the
checkpoint write and best-copy happen iff the rank is the local leader
(`count = 0` on every other rank); on the leader the order is
evaluate, then save, then barrier, and on every rank evaluate precedes the
barrier; finally, in the whole driver trace the epoch tags are
non-decreasing, so every event of an epoch — the barrier included —
precedes every event of any later epoch. -/
theorem val_save_barrier_order (ep total_ep iters_train s start_ep start_it : ℕ)
    (hook leader best : Bool) (bestF : ℕ → Bool)
    (h : is_val_and_also_saving ep total_ep = true) :
    (epochTrace ep total_ep iters_train s hook leader best).count
        (TrainEvent.evaluate ep) = 1
    ∧ (epochTrace ep total_ep iters_train s hook leader best).count
        (TrainEvent.barrier ep) = 1
    ∧ (epochTrace ep total_ep iters_train s hook leader best).count
        (TrainEvent.saveLast ep) = (if leader then 1 else 0)
    ∧ (epochTrace ep total_ep iters_train s hook leader best).count
        (TrainEvent.copyBest ep) = (if leader && best then 1 else 0)
    ∧ [TrainEvent.evaluate ep, TrainEvent.saveLast ep, TrainEvent.barrier ep].Sublist
        (epochTrace ep total_ep iters_train s hook true best)
    ∧ [TrainEvent.evaluate ep, TrainEvent.barrier ep].Sublist
        (epochTrace ep total_ep iters_train s hook leader best)
    ∧ (driverTrace total_ep start_ep start_it iters_train hook leader bestF).Pairwise
        (fun a b => TrainEvent.epoch a ≤ TrainEvent.epoch b) := by
  refine ⟨?_, ?_, ?_, ?_, ?_, ?_, ?_⟩
  · rcases Bool.eq_false_or_eq_true hook with h1 | h1 <;>
      rcases Bool.eq_false_or_eq_true leader with h2 | h2 <;>
        rcases Bool.eq_false_or_eq_true best with h3 | h3 <;>
          simp [epochTrace, valSaveBlock, h, h1, h2, h3, List.count_append,
            List.count_cons]
  · rcases Bool.eq_false_or_eq_true hook with h1 | h1 <;>
      rcases Bool.eq_false_or_eq_true leader with h2 | h2 <;>
        rcases Bool.eq_false_or_eq_true best with h3 | h3 <;>
          simp [epochTrace, valSaveBlock, h, h1, h2, h3, List.count_append,
            List.count_cons]
  · rcases Bool.eq_false_or_eq_true hook with h1 | h1 <;>
      rcases Bool.eq_false_or_eq_true leader with h2 | h2 <;>
        rcases Bool.eq_false_or_eq_true best with h3 | h3 <;>
          simp [epochTrace, valSaveBlock, h, h1, h2, h3, List.count_append,
            List.count_cons]
  · rcases Bool.eq_false_or_eq_true hook with h1 | h1 <;>
      rcases Bool.eq_false_or_eq_true leader with h2 | h2 <;>
        rcases Bool.eq_false_or_eq_true best with h3 | h3 <;>
          simp [epochTrace, valSaveBlock, h, h1, h2, h3, List.count_append,
            List.count_cons]
  · unfold epochTrace valSaveBlock
    rw [if_pos h, if_pos rfl]
    exact ((((List.sublist_append_right _ _).cons₂ _).cons₂ _).trans
      (List.sublist_append_right _ _)).trans (List.sublist_append_left _ _)
  · unfold epochTrace valSaveBlock
    rw [if_pos h]
    exact (((List.sublist_append_right _ _).cons₂ _).trans
      (List.sublist_append_right _ _)).trans (List.sublist_append_left _ _)
  · unfold driverTrace
    rw [List.pairwise_flatMap]
    constructor
    · intro a _
      exact pairwise_le_of_tag (epochTrace_epoch_eq a total_ep iters_train
        (epochStartIt start_ep start_it a) hook leader (bestF a))
    · refine (List.pairwise_lt_range' start_ep (total_ep - start_ep)).imp ?_
      intro a b hab x hx y hy
      rw [epochTrace_epoch_eq a total_ep iters_train
          (epochStartIt start_ep start_it a) hook leader (bestF a) x hx,
        epochTrace_epoch_eq b total_ep iters_train
          (epochStartIt start_ep start_it b) hook leader (bestF b) y hy]
      exact le_of_lt hab

/-- Witness for `val_save_barrier_order` at a concrete epoch. -/
theorem val_save_barrier_order_witness :
    is_val_and_also_saving 9 10 = true
    ∧ ((epochTrace 9 10 2 0 true true true).count (TrainEvent.evaluate 9) = 1
    ∧ (epochTrace 9 10 2 0 true true true).count (TrainEvent.barrier 9) = 1
    ∧ (epochTrace 9 10 2 0 true true true).count (TrainEvent.saveLast 9)
        = (if true then 1 else 0)
    ∧ (epochTrace 9 10 2 0 true true true).count (TrainEvent.copyBest 9)
        = (if true && true then 1 else 0)
    ∧ [TrainEvent.evaluate 9, TrainEvent.saveLast 9, TrainEvent.barrier 9].Sublist
        (epochTrace 9 10 2 0 true true true)
    ∧ [TrainEvent.evaluate 9, TrainEvent.barrier 9].Sublist
        (epochTrace 9 10 2 0 true true true)
    ∧ (driverTrace 10 0 0 2 true true (fun _ => false)).Pairwise
        (fun a b => TrainEvent.epoch a ≤ TrainEvent.epoch b)) :=
  ⟨rfl, val_save_barrier_order 9 10 2 0 0 0 true true true (fun _ => false) rfl⟩

lemma floor_le_pyRound (q : ℚ) : ⌊q⌋ ≤ pyRound q := by
  unfold pyRound
  split_ifs <;> omega

lemma pyRound_le_floor_add_one (q : ℚ) : pyRound q ≤ ⌊q⌋ + 1 := by
  unfold pyRound
  split_ifs <;> omega

lemma pyRound_nonneg {q : ℚ} (h : 0 ≤ q) : 0 ≤ pyRound q :=
  le_trans (Int.floor_nonneg.mpr h) (floor_le_pyRound q)

lemma pyRound_le_int {q : ℚ} {d : ℤ} (h : q ≤ (d : ℚ)) : pyRound q ≤ d := by
  have hf : ⌊q⌋ ≤ d := by
    have h2 := Int.floor_le_floor h
    rwa [Int.floor_intCast] at h2
  rcases lt_or_eq_of_le hf with hlt | heq
  · exact le_trans (pyRound_le_floor_add_one q) (by omega)
  · have hq : q - (⌊q⌋ : ℚ) ≤ 0 := by
      have h3 : q ≤ (⌊q⌋ : ℚ) := by rw [heq]; exact h
      linarith
    unfold pyRound
    rw [if_pos (by linarith : q - (⌊q⌋ : ℚ) < 1/2)]
    omega

lemma pyRound_mono {x y : ℚ} (h : x ≤ y) : pyRound x ≤ pyRound y := by
  rcases lt_or_eq_of_le (Int.floor_le_floor h) with hlt | heq
  · calc pyRound x ≤ ⌊x⌋ + 1 := pyRound_le_floor_add_one x
      _ ≤ ⌊y⌋ := by omega
      _ ≤ pyRound y := floor_le_pyRound y
  · unfold pyRound
    rw [← heq]
    have hxy : x - (⌊x⌋ : ℚ) ≤ y - (⌊x⌋ : ℚ) := by linarith
    split_ifs <;> first | omega | linarith

lemma prog_si_warmup {pg : ℚ} {pg0 : ℤ} {numPn : ℕ} {wpIt maxIt : ℚ} {g : ℕ}
    (hpg : pg ≠ 0) (h1 : (g : ℚ) ≤ wpIt) :
    prog_si pg pg0 numPn wpIt maxIt g = pg0 := by
  unfold prog_si
  rw [if_pos hpg, if_pos h1]

lemma prog_si_late {pg : ℚ} {pg0 : ℤ} {numPn : ℕ} {wpIt maxIt : ℚ} {g : ℕ}
    (hpg : pg ≠ 0) (h1 : ¬ (g : ℚ) ≤ wpIt) (h2 : maxIt * pg ≤ (g : ℚ)) :
    prog_si pg pg0 numPn wpIt maxIt g = (numPn : ℤ) - 1 := by
  unfold prog_si
  rw [if_pos hpg, if_neg h1, if_pos h2]

lemma prog_si_mid {pg : ℚ} {pg0 : ℤ} {numPn : ℕ} {wpIt maxIt : ℚ} {g : ℕ}
    (hpg : pg ≠ 0) (h1 : ¬ (g : ℚ) ≤ wpIt) (h2 : ¬ maxIt * pg ≤ (g : ℚ)) :
    prog_si pg pg0 numPn wpIt maxIt g
      = pg0 + pyRound ((min (max (((g : ℚ) - wpIt) / (maxIt * pg - wpIt)) 0) 1)
          * (((numPn : ℤ) - 1 - pg0 : ℤ) : ℚ)) := by
  unfold prog_si
  rw [if_pos hpg, if_neg h1, if_neg h2]

lemma prog_si_range {pg : ℚ} {pg0 : ℤ} {numPn : ℕ} {wpIt maxIt : ℚ} (g : ℕ)
    (hpg : pg ≠ 0) (hd : pg0 ≤ (numPn : ℤ) - 1) :
    pg0 ≤ prog_si pg pg0 numPn wpIt maxIt g
    ∧ prog_si pg pg0 numPn wpIt maxIt g ≤ (numPn : ℤ) - 1 := by
  unfold prog_si
  rw [if_pos hpg]
  split_ifs with h1 h2
  · exact ⟨le_refl _, hd⟩
  · exact ⟨hd, le_refl _⟩
  · have hδ : (0 : ℤ) ≤ (numPn : ℤ) - 1 - pg0 := by omega
    have hδq : (0 : ℚ) ≤ (((numPn : ℤ) - 1 - pg0 : ℤ) : ℚ) := by exact_mod_cast hδ
    have hp0 : (0 : ℚ) ≤ min (max (((g : ℚ) - wpIt) / (maxIt * pg - wpIt)) 0) 1 :=
      le_min (le_max_right _ _) zero_le_one
    have hp1 : min (max (((g : ℚ) - wpIt) / (maxIt * pg - wpIt)) 0) 1 ≤ 1 :=
      min_le_right _ _
    constructor
    · have hr := pyRound_nonneg (mul_nonneg hp0 hδq)
      omega
    · have hmul : (min (max (((g : ℚ) - wpIt) / (maxIt * pg - wpIt)) 0) 1)
          * (((numPn : ℤ) - 1 - pg0 : ℤ) : ℚ) ≤ (((numPn : ℤ) - 1 - pg0 : ℤ) : ℚ) := by
        calc (min (max (((g : ℚ) - wpIt) / (maxIt * pg - wpIt)) 0) 1)
              * (((numPn : ℤ) - 1 - pg0 : ℤ) : ℚ)
            ≤ 1 * (((numPn : ℤ) - 1 - pg0 : ℤ) : ℚ) :=
              mul_le_mul_of_nonneg_right hp1 hδq
          _ = (((numPn : ℤ) - 1 - pg0 : ℤ) : ℚ) := one_mul _
      have hr := pyRound_le_int hmul
      omega

lemma prog_si_mono {pg : ℚ} {pg0 : ℤ} {numPn : ℕ} {wpIt maxIt : ℚ}
    (hd : pg0 ≤ (numPn : ℤ) - 1) {g1 g2 : ℕ} (hle : g1 ≤ g2) :
    prog_si pg pg0 numPn wpIt maxIt g1 ≤ prog_si pg pg0 numPn wpIt maxIt g2 := by
  by_cases hpg : pg = 0
  · subst hpg
    simp [prog_si]
  · have hcast : (g1 : ℚ) ≤ (g2 : ℚ) := by exact_mod_cast hle
    by_cases h1 : (g1 : ℚ) ≤ wpIt
    · rw [prog_si_warmup hpg h1]
      exact (prog_si_range g2 hpg hd).1
    · have h1' : ¬ (g2 : ℚ) ≤ wpIt := fun hc => h1 (le_trans hcast hc)
      by_cases h2 : maxIt * pg ≤ (g1 : ℚ)
      · rw [prog_si_late hpg h1 h2, prog_si_late hpg h1' (le_trans h2 hcast)]
      · by_cases h2' : maxIt * pg ≤ (g2 : ℚ)
        · rw [prog_si_late hpg h1' h2']
          exact (prog_si_range g1 hpg hd).2
        · rw [prog_si_mid hpg h1 h2, prog_si_mid hpg h1' h2']
          apply add_le_add_left
          apply pyRound_mono
          apply mul_le_mul_of_nonneg_right
          · refine min_le_min (max_le_max ?_ le_rfl) le_rfl
            have hD : (0 : ℚ) ≤ maxIt * pg - wpIt := by
              push_neg at h1 h2
              linarith
            exact div_le_div_of_nonneg_right (sub_le_sub_right hcast wpIt) hD
          · have hδ : (0 : ℤ) ≤ (numPn : ℤ) - 1 - pg0 := by omega
            exact_mod_cast hδ

/-- C10, counterexample: the claim asserts `prog_si == len(patch_nums) - 1`
*whenever* `g_it >= max_it * args.pg`, but the code tests the warmup branch
first; with `pg = 1/2`, `pg0 = 0`, `len(patch_nums) = 3`, `wp_it = 8`,
`max_it = 10` and `g_it = 6` we have `g_it >= max_it * pg = 5`, yet the
code returns `pg0 = 0`, not `3 - 1 = 2`, because `g_it <= wp_it` takes
precedence. -/
theorem prog_si_precedence_counterexample :
    prog_si (1/2) 0 3 8 10 6 = 0
    ∧ (10 : ℚ) * (1/2) ≤ ((6 : ℕ) : ℚ)
    ∧ (0 : ℤ) ≠ (3 : ℤ) - 1 := by
  refine ⟨by norm_num [prog_si], by norm_num, by decide⟩

/-- C10, amended: with `pg == 0` the stage is `-1` (curriculum disabled);
with `pg != 0` the branches apply in the code's order — warmup
(`g_it <= wp_it`) gives `pg0`, otherwise `g_it >= max_it*pg` gives
`len(patch_nums) - 1`, otherwise the clamped interpolation formula; hence
(given `pg0 <= len(patch_nums) - 1`) the stage always lies in
`{-1} ∪ [pg0, len(patch_nums) - 1]` and is non-decreasing in `g_it`. -/
theorem prog_si_amended (pg : ℚ) (pg0 : ℤ) (numPatchNums : ℕ) (wpIt maxIt : ℚ)
    (g1 g2 : ℕ) (hd : pg0 ≤ (numPatchNums : ℤ) - 1) (hle : g1 ≤ g2) :
    prog_si 0 pg0 numPatchNums wpIt maxIt g1 = -1
    ∧ prog_si pg pg0 numPatchNums wpIt maxIt g1
        = (if pg = 0 then -1
           else if (g1 : ℚ) ≤ wpIt then pg0
           else if maxIt * pg ≤ (g1 : ℚ) then (numPatchNums : ℤ) - 1
           else pg0 + pyRound ((min (max (((g1 : ℚ) - wpIt) / (maxIt * pg - wpIt)) 0) 1)
                  * (((numPatchNums : ℤ) - 1 - pg0 : ℤ) : ℚ)))
    ∧ (prog_si pg pg0 numPatchNums wpIt maxIt g1 = -1
        ∨ (pg0 ≤ prog_si pg pg0 numPatchNums wpIt maxIt g1
            ∧ prog_si pg pg0 numPatchNums wpIt maxIt g1 ≤ (numPatchNums : ℤ) - 1))
    ∧ prog_si pg pg0 numPatchNums wpIt maxIt g1
        ≤ prog_si pg pg0 numPatchNums wpIt maxIt g2 := by
  refine ⟨by simp [prog_si], ?_, ?_, prog_si_mono hd hle⟩
  · by_cases hpg : pg = 0
    · subst hpg
      simp [prog_si]
    · rw [if_neg hpg]
      unfold prog_si
      rw [if_pos hpg]
  · by_cases hpg : pg = 0
    · subst hpg
      left
      simp [prog_si]
    · right
      exact prog_si_range g1 hpg hd

/-- Witness for `prog_si_amended` at a concrete configuration. -/
theorem prog_si_amended_witness :
    ((0 : ℤ) ≤ (3 : ℤ) - 1 ∧ (2 : ℕ) ≤ 7)
    ∧ (prog_si 0 0 3 8 10 2 = -1
    ∧ prog_si (1/2) 0 3 8 10 2
        = (if (1/2 : ℚ) = 0 then -1
           else if ((2 : ℕ) : ℚ) ≤ 8 then 0
           else if (10 : ℚ) * (1/2) ≤ ((2 : ℕ) : ℚ) then (3 : ℤ) - 1
           else 0 + pyRound ((min (max ((((2 : ℕ) : ℚ) - 8) / ((10 : ℚ) * (1/2) - 8)) 0) 1)
                  * (((3 : ℤ) - 1 - 0 : ℤ) : ℚ)))
    ∧ (prog_si (1/2) 0 3 8 10 2 = -1
        ∨ ((0 : ℤ) ≤ prog_si (1/2) 0 3 8 10 2
            ∧ prog_si (1/2) 0 3 8 10 2 ≤ (3 : ℤ) - 1))
    ∧ prog_si (1/2) 0 3 8 10 2 ≤ prog_si (1/2) 0 3 8 10 7) :=
  ⟨⟨by decide, by decide⟩,
    prog_si_amended (1/2) 0 3 8 10 2 7 (by decide) (by decide)⟩
